import Mathlib

/-!
Verification development for the incremental sync and keyword-trend pipeline.

Text is modelled as `List Char` (written via `String.data` on literals) so that
every operation on it is an executable Lean function; JavaScript string methods
(`includes`, `toLowerCase`, `split(/\s+/)`, `join(" ")`) are translated into
explicit list functions below.  The Porter stemmer comes from the external
`natural` npm package, so it is a parameter `stemWord : Str → Str` of every
definition that stems; concrete instantiations pick a specific stemmer.
Floating-point scores are modelled as exact rationals.
-/

/-- Text, modelled as a list of characters. -/
abbrev Str := List Char

/-- JavaScript `String.prototype.toLowerCase`, per character. -/
def jsToLower (s : Str) : Str := s.map Char.toLower

/-- JavaScript `hay.includes(needle)`: contiguous-substring containment. -/
def jsIncludes (hay needle : Str) : Bool := decide (needle <:+: hay)

/-- Worker for `splitWs`.  The `Option Str` state is `some cur` while inside a
token (accumulated reversed) and `none` while inside a whitespace run (the
token before the run has already been emitted). -/
def splitWsGo : Option Str → Str → List Str
  | none, [] => [[]]
  | some cur, [] => [cur.reverse]
  | none, c :: cs =>
    if c.isWhitespace then splitWsGo none cs else splitWsGo (some [c]) cs
  | some cur, c :: cs =>
    if c.isWhitespace then cur.reverse :: splitWsGo none cs
    else splitWsGo (some (c :: cur)) cs

/-- JavaScript `s.split(/\s+/)`: split on maximal whitespace runs, keeping the
empty boundary tokens exactly as the regex split does. -/
def splitWs (s : Str) : List Str := splitWsGo (some []) s

/-- JavaScript `parts.join(" ")`. -/
def joinSpace (parts : List Str) : Str := List.intercalate [' '] parts

/-- The apostrophe character, written by code point to keep source literals
plain. -/
def apos : Char := Char.ofNat 39

namespace KeywordBlacklist

/-- `BLACKLISTED_KEYWORDS` from `lib/keyword-blacklist.ts` (current, stem-based
version of the module): the default blacklist entries, in source order. -/
def BLACKLISTED_KEYWORDS : List Str :=
  [ "show".data, "hn".data, "ask".data, "https".data, "http".data, "www".data
  , "com".data
  , "thing".data, "things".data, "stuff".data, "way".data, "lot".data
  , "bit".data
  , "n".data ++ (apos :: "t".data)
  , "make".data, "time".data, "problem".data, "point".data
  , "years ago".data, "long time".data, "works".data, "people".data
  , "work".data, "good".data, "good thing".data, "year".data, "years".data
  , "Good thing people".data, "pretty".data, "state".data, "made".data
  , "find".data, "back".data, "great".data, "case".data, "long".data
  , "bad".data, "personal".data, "run".data, "day".data, "part".data
  , "write code".data, "open".data, "understand".data, "hard".data
  , "tool".data
  , apos :: "re".data ]

/-- `stemPhrase`: lower-case the phrase, split it on whitespace, stem each
word with the (external) Porter stemmer `stemWord`, and re-join with single
spaces. -/
def stemPhrase (stemWord : Str → Str) (phrase : Str) : Str :=
  joinSpace ((splitWs (jsToLower phrase)).map stemWord)

/-- `STEMMED_BLACKLIST`: the stemmed forms of the default blacklist entries.
The source stores them in a `Set<string>`, which only deduplicates; a list
keeps the same membership, which is all the predicates below use. -/
def STEMMED_BLACKLIST (stemWord : Str → Str) : List Str :=
  BLACKLISTED_KEYWORDS.map (stemPhrase stemWord)

/-- `isStemBlacklisted`: an already-stemmed keyword is blacklisted when it
contains some stemmed default-blacklist entry as a substring. -/
def isStemBlacklisted (stemWord : Str → Str) (stemmedKeyword : Str) : Bool :=
  (STEMMED_BLACKLIST stemWord).any fun b => jsIncludes stemmedKeyword b

/-- `isBlacklisted`: stem the raw keyword, then look for a contained
blacklisted stem. -/
def isBlacklisted (stemWord : Str → Str) (keyword : Str) : Bool :=
  (STEMMED_BLACKLIST stemWord).any fun b =>
    jsIncludes (stemPhrase stemWord keyword) b

/-- A user blacklist-override action. -/
inductive BlacklistAction
  | block
  | allow
deriving DecidableEq, Repr

/-- One row of the `blacklist_overrides` table. -/
structure BlacklistOverride where
  keyword : Str
  stem : Str
  action : BlacklistAction
deriving DecidableEq, Repr

/-- The override cache built by `loadOverrideCache`: `Map(stem → action)`.
Rows are inserted in table order, later rows overwriting earlier ones, so a
lookup returns the action of the last row with the given stem. -/
def overrideLookup (rows : List BlacklistOverride) (stem : Str) :
    Option BlacklistAction :=
  (rows.reverse.find? fun r => r.stem = stem).map (·.action)

/-- `isBlacklistedWithOverrides` (pure core): stem the keyword; a user
`allow` override wins (not blacklisted), a user `block` override wins
(blacklisted); with no override, fall back to the stemmed default list. -/
def isBlacklistedWithOverrides (stemWord : Str → Str)
    (overrides : List BlacklistOverride) (keyword : Str) : Bool :=
  let stemmed := stemPhrase stemWord keyword
  match overrideLookup overrides stemmed with
  | some .allow => false
  | some .block => true
  | none => (STEMMED_BLACKLIST stemWord).any fun b => jsIncludes stemmed b

end KeywordBlacklist

namespace KeywordVariants

/-- `stemKeyword` from the keyword-variant module:
`PorterStemmer.stem(keyword.toLowerCase())`. -/
def stemKeyword (stemWord : Str → Str) (keyword : Str) : Str :=
  stemWord (jsToLower keyword)

/-- One row of the `keyword_variant_overrides` table (`variant_stem` carries a
unique constraint). -/
structure VariantOverride where
  variantStem : Str
  parentKeyword : Str
deriving DecidableEq, Repr

/-- `getParentKeyword`: stem the keyword and look it up in the variant cache
(`Map(variantStem → parentKeyword)`, later rows overwriting earlier ones).
The source returns `cache.get(stem) || null`, so an empty parent string is
also reported as absent. -/
def getParentKeyword (stemWord : Str → Str) (overrides : List VariantOverride)
    (keyword : Str) : Option Str :=
  match (overrides.reverse.find? fun r =>
      r.variantStem = stemKeyword stemWord keyword).map (·.parentKeyword) with
  | some p => if p = [] then none else some p
  | none => none

end KeywordVariants

namespace ExtractDaily

open KeywordBlacklist KeywordVariants

/-- One `(keyword, score, stemmed)` tuple from the external scoring oracle
(`KeywordResult` in `extract-daily/route.ts`).  Scores are modelled as exact
rationals. -/
structure KeywordResult where
  keyword : Str
  score : ℚ
  stemmed : Str
deriving DecidableEq, Repr

/-- `AggregatedKeyword` from `extract-daily/route.ts`. -/
structure AggregatedKeyword where
  keyword : Str
  stem : Str
  avgScore : ℚ
  count : ℕ
  variants : List Str
deriving DecidableEq, Repr

/-- The per-group accumulator of `aggregateKeywords`. -/
structure GroupData where
  keywords : List Str
  totalScore : ℚ
  count : ℕ
  shortestKeyword : Str
deriving DecidableEq, Repr

/-- Association-list update preserving first-insertion order of keys, the
iteration order of a JavaScript string-keyed object. -/
def updateGroup (groups : List (Str × GroupData)) (key : Str)
    (f : GroupData → GroupData) : List (Str × GroupData) :=
  match groups with
  | [] => []
  | (k, d) :: rest =>
    if k = key then (k, f d) :: rest else (k, d) :: updateGroup rest key f

/-- The body of the `for (const kw of keywords)` loop of `aggregateKeywords`:
skip a keyword whose own stem is blacklisted by the default list, resolve the
group key (manual parent override first, else the stem), create the group on
first sight, and fold the keyword into it. -/
def aggregateStep (stemWord : Str → Str) (variantOverrides : List VariantOverride)
    (groups : List (Str × GroupData)) (kw : KeywordResult) :
    List (Str × GroupData) :=
  if isStemBlacklisted stemWord kw.stemmed then groups
  else
    let parentKeyword := getParentKeyword stemWord variantOverrides kw.keyword
    let groupKey := parentKeyword.getD kw.stemmed
    let groups :=
      if (groups.find? fun g => g.1 = groupKey).isNone then
        groups ++ [(groupKey,
          { keywords := [], totalScore := 0, count := 0
            shortestKeyword := parentKeyword.getD kw.keyword })]
      else groups
    updateGroup groups groupKey fun d =>
      { keywords := d.keywords ++ [kw.keyword]
        totalScore := d.totalScore + kw.score
        count := d.count + 1
        shortestKeyword :=
          if parentKeyword.isNone ∧
              kw.keyword.length < d.shortestKeyword.length then kw.keyword
          else d.shortestKeyword }

/-- `aggregateKeywords` from `extract-daily/route.ts`: fold all keywords into
groups, project each group to an `AggregatedKeyword` with the mean score, and
sort by `(a, b) => b.count - a.count`, i.e. descending variant count.
JavaScript `Array.prototype.sort` is stable, and a stable sort's output is
uniquely determined by the comparator preorder and the input order, so it is
modelled by the (stable) insertion sort. -/
def aggregateKeywords (stemWord : Str → Str)
    (variantOverrides : List VariantOverride) (keywords : List KeywordResult) :
    List AggregatedKeyword :=
  let groups := keywords.foldl (aggregateStep stemWord variantOverrides) []
  (groups.map fun g =>
    { keyword := g.2.shortestKeyword
      stem := g.1
      avgScore := g.2.totalScore / g.2.count
      count := g.2.count
      variants := g.2.keywords }).insertionSort fun a b => b.count ≤ a.count

/-- One row inserted into `daily_keywords` for a processed day. -/
structure DailyKeywordRow where
  date : Str
  keyword : Str
  stemmedKeyword : Str
  score : ℚ
  rank : ℕ
  variantCount : ℕ
  itemCount : ℕ
deriving DecidableEq, Repr

/-- The `daily_keywords` insert of the extraction route: every aggregated
group becomes a row, ranked `idx + 1` in the aggregated order. -/
def dailyKeywordRows (date : Str) (itemCount : ℕ)
    (aggregated : List AggregatedKeyword) : List DailyKeywordRow :=
  aggregated.mapIdx fun idx kw =>
    { date := date
      keyword := kw.keyword
      stemmedKeyword := kw.stem
      score := kw.avgScore
      rank := idx + 1
      variantCount := kw.count
      itemCount := itemCount }

/-- One row of the `keyword_stats` table. -/
structure KeywordStatRow where
  keyword : Str
  stemmedKeyword : Str
  lastItemTime : Int
  lastItemId : Int
  firstSeenTime : Int
  totalDaysAppeared : Int
deriving DecidableEq, Repr

/-- The `keyword_stats` upsert taken when `isReprocessingToday` holds: insert
a fresh row on no conflict; on conflict overwrite only `lastItemTime` and
`lastItemId` with the found record. -/
def reprocessUpsert (existing : Option KeywordStatRow) (keyword stem : Str)
    (itemTime itemId : Int) : KeywordStatRow :=
  match existing with
  | none =>
    { keyword := keyword, stemmedKeyword := stem, lastItemTime := itemTime
      lastItemId := itemId, firstSeenTime := itemTime, totalDaysAppeared := 1 }
  | some r => { r with lastItemTime := itemTime, lastItemId := itemId }

/-- The `keyword_stats` upsert taken when the day was not yet counted: insert
a fresh row on no conflict; on conflict merge with
`GREATEST`/`CASE`/`LEAST`/`+ 1` exactly as the route's SQL does. -/
def newDayUpsert (existing : Option KeywordStatRow) (keyword stem : Str)
    (itemTime itemId : Int) : KeywordStatRow :=
  match existing with
  | none =>
    { keyword := keyword, stemmedKeyword := stem, lastItemTime := itemTime
      lastItemId := itemId, firstSeenTime := itemTime, totalDaysAppeared := 1 }
  | some r =>
    { r with
      lastItemTime := max r.lastItemTime itemTime
      lastItemId := if itemTime > r.lastItemTime then itemId else r.lastItemId
      firstSeenTime := min r.firstSeenTime itemTime
      totalDaysAppeared := r.totalDaysAppeared + 1 }

end ExtractDaily

namespace Sync

/-- A record fetched from the remote feed (`HNItem` in `lib/hn-api.ts`).
Only the fields the sync engine inspects are kept; the remaining optional
fields (`text`, `title`, `url`, ...) are copied verbatim into the store and
never branch the modelled control flow. -/
structure HNItem where
  id : Int
  type : Option Str
  time : Option Int
deriving DecidableEq, Repr

/-- JavaScript truthiness of an optional string field: `undefined` and the
empty string are falsy. -/
def truthyStr : Option Str → Bool
  | none => false
  | some s => s ≠ []

/-- JavaScript truthiness of an optional numeric field: `undefined` and `0`
are falsy. -/
def truthyInt : Option Int → Bool
  | none => false
  | some t => t ≠ 0

/-- `CHUNK_SIZE` from `app/api/sync/chunk/route.ts`. -/
def CHUNK_SIZE : Int := 1000

/-- The chunk's ID window: walking backward from `startId - 1` while
`id >= endId` and fewer than `CHUNK_SIZE` ids were generated. -/
def idsToFetch (startId endId : Int) : List Int :=
  (List.range (min (startId - endId).toNat CHUNK_SIZE.toNat)).map fun (k : ℕ) =>
    startId - 1 - (k : Int)

/-- `Math.min(...l)` for the nonempty lists the route applies it to. -/
def minList : List Int → Int
  | [] => 0
  | x :: xs => xs.foldl min x

/-- `batchInsertItems`: keep items having a (truthy) type and timestamp,
insert them with insert-or-ignore keyed on the item id, and return the length
of the prepared insert list.  The store is modelled as the list of item ids
already persisted; the user-table upsert done alongside touches neither the
items store nor any counter and is omitted.  Note the returned count is the
number of rows handed to the insert, whether or not they conflicted. -/
def batchInsertItems (store : List Int) (hnItems : List HNItem) :
    List Int × ℕ :=
  if hnItems.isEmpty then (store, 0)
  else
    let validItems := hnItems.filter fun it => truthyStr it.type && truthyInt it.time
    if validItems.isEmpty then (store, 0)
    else
      let store' := validItems.foldl
        (fun st it => if st.contains it.id then st else st ++ [it.id]) store
      (store', validItems.length)

/-- Sync-run status. -/
inductive RunStatus
  | running
  | paused
  | completed
  | failed
deriving DecidableEq, Repr

/-- One row of the `sync_runs` table (the fields the chunk and status routes
read and write). -/
structure SyncRun where
  startMaxItem : Int
  targetEndItem : Int
  totalItems : Int
  lastFetchedItem : Int
  itemsFetched : Int
  status : RunStatus
deriving DecidableEq, Repr

/-- One `POST /api/sync/chunk` call (`processChunk`) for a loaded run, as a
transition on the run row and the item store.  `feed` gives the remote feed's
response for each id (`fetchItemsBatch` preserves input order and only bounds
request concurrency, so its result is `ids.map feed`). -/
def processChunk (feed : Int → Option HNItem) (run : SyncRun)
    (store : List Int) : SyncRun × List Int :=
  if run.status = .completed then (run, store)
  else
    let run0 := if run.status = .paused then { run with status := .running } else run
    let startId := run0.lastFetchedItem
    let endId := max run0.targetEndItem (startId - CHUNK_SIZE)
    let ids := idsToFetch startId endId
    if ids.isEmpty then ({ run0 with status := .completed }, store)
    else
      let fetched := ids.map feed
      let validItems := fetched.filterMap id
      let inserted := batchInsertItems store validItems
      let newLastFetched := minList ids
      let isDone := newLastFetched ≤ run0.targetEndItem
      ({ run0 with
          lastFetchedItem := newLastFetched
          itemsFetched := run0.itemsFetched + inserted.2
          status := if isDone then .completed else .running },
        inserted.1)

/-- A sequence of `processChunk` calls on one run, each call seeing the
state the previous one persisted. -/
def runChunks (feeds : List (Int → Option HNItem)) (s : SyncRun × List Int) :
    SyncRun × List Int :=
  feeds.foldl (fun st f => processChunk f st.1 st.2) s

/-- JavaScript `Math.round` on an exact rational: floor of `q + 1/2`. -/
def mathRound (q : ℚ) : Int := ⌊q + 1 / 2⌋

/-- The progress percentage computed by the sync status route
(`GET`, also at `src/unnamed/part_009`): `Math.round(((startMaxItem -
lastFetchedItem) / totalItems) * 100)` when `totalItems > 0`, else `0`. -/
def runProgress (run : SyncRun) : Int :=
  if run.totalItems > 0 then
    mathRound (((run.startMaxItem : ℚ) - (run.lastFetchedItem : ℚ))
      / (run.totalItems : ℚ) * 100)
  else 0

/-- The progress value claimed by the spec sentence (stated for comparison
with `runProgress`, not taken from the source): the rounded percentage
clamped to `[0, 100]`, with `totalItems = 0` defined as `100`. -/
def specClaimedProgress (run : SyncRun) : Int :=
  if run.totalItems = 0 then 100
  else
    max 0 (min 100 (mathRound (((run.startMaxItem : ℚ) -
      (run.lastFetchedItem : ℚ)) / (run.totalItems : ℚ) * 100)))

end Sync

namespace HnApi

/-- The timestamp the binary search sees at a probe: `none` when the record
is absent, its `time` field is absent, or that field is `0` (the JavaScript
guard is `!item || !item.time`). -/
def jsTimeOf : Option Sync.HNItem → Option Int
  | none => none
  | some it =>
    match it.time with
    | none => none
    | some t => if t = 0 then none else some t

/-- The `while (low <= high)` loop of `findItemIdAtTimestamp`.  `mid` is
`Math.floor((low + high) / 2)`; integer `/` on `Int` rounds toward negative
infinity for the positive divisor `2`, matching `Math.floor`. -/
def searchLoop (feed : Int → Option Sync.HNItem) (target : Int)
    (low high best : Int) : Int :=
  if _h : low ≤ high then
    match jsTimeOf (feed ((low + high) / 2)) with
    | none => searchLoop feed target low ((low + high) / 2 - 1) best
    | some t =>
      if t ≤ target then searchLoop feed target ((low + high) / 2 + 1) high ((low + high) / 2)
      else searchLoop feed target low ((low + high) / 2 - 1) best
  else best
termination_by (high + 1 - low).toNat
decreasing_by
  all_goals
    have h1 : low ≤ (low + high) / 2 := by
      rw [Int.le_ediv_iff_mul_le (by norm_num : (0 : Int) < 2)]; omega
    have h2 : (low + high) / 2 ≤ high := by
      have := (Int.ediv_lt_iff_lt_mul (b := high + 1)
        (by norm_num : (0 : Int) < 2)).mpr (by omega : low + high < (high + 1) * 2)
      omega
    omega

/-- `findItemIdAtTimestamp` from `lib/hn-api.ts`: binary-search the id range,
then subtract the 1000-id safety buffer from the best match, clamped below to
`minItem`. -/
def findItemIdAtTimestamp (feed : Int → Option Sync.HNItem)
    (targetTimestamp maxItem : Int) (minItem : Int := 1) : Int :=
  max minItem (searchLoop feed targetTimestamp minItem maxItem minItem - 1000)

end HnApi

namespace Trends

/-- The trend tag assigned to a keyword for a day. -/
inductive Trend
  | up
  | down
  | new
  | stable
deriving DecidableEq, Repr

/-- One `KeywordTrend` entry of the trends route (the rank/trend fields the
classification writes). -/
structure KeywordTrend where
  keyword : Str
  currentRank : Int
  previousRank : Option Int
  rankChange : Option Int
  trend : Trend
deriving DecidableEq, Repr

/-- `prevRankMap[kw] ?? null`: the rank recorded for a keyword on the
previous day with data, if any (the lookup object is filled in row order, a
later row overwriting an earlier one with the same keyword). -/
def prevRank (previousDay : Option (List ExtractDaily.DailyKeywordRow))
    (keyword : Str) : Option Int :=
  match previousDay with
  | none => none
  | some rows =>
    (rows.reverse.find? fun r => r.keyword = keyword).map fun r => (r.rank : Int)

/-- The per-keyword body of the trends route: no previous rank means `new`;
otherwise `rankChange = previousRank - currentRank`, classified `up` above
`2`, `down` below `-2`, `stable` in between. -/
def trendFor (previousDay : Option (List ExtractDaily.DailyKeywordRow))
    (kw : ExtractDaily.DailyKeywordRow) : KeywordTrend :=
  match prevRank previousDay kw.keyword with
  | none =>
    { keyword := kw.keyword, currentRank := (kw.rank : Int)
      previousRank := none, rankChange := none, trend := .new }
  | some p =>
    { keyword := kw.keyword, currentRank := (kw.rank : Int)
      previousRank := some p, rankChange := some (p - (kw.rank : Int))
      trend :=
        if p - (kw.rank : Int) > 2 then .up
        else if p - (kw.rank : Int) < -2 then .down
        else .stable }

/-- One day's trend entries. -/
def dayTrends (previousDay : Option (List ExtractDaily.DailyKeywordRow))
    (currentDay : List ExtractDaily.DailyKeywordRow) : List KeywordTrend :=
  currentDay.map (trendFor previousDay)

/-- The `for (let i = 0; ...)` loop over the days that have data, in
ascending date order: day `i` is classified against day `i - 1`, the
immediately preceding day with data; the first day has no previous day. -/
def computeTrends (previousDay : Option (List ExtractDaily.DailyKeywordRow)) :
    List (Str × List ExtractDaily.DailyKeywordRow) →
      List (Str × List KeywordTrend)
  | [] => []
  | (date, cur) :: rest =>
    (date, dayTrends previousDay cur) :: computeTrends (some cur) rest

end Trends

namespace BlacklistRoute

open KeywordBlacklist

/-- JavaScript `s.trim()`. -/
def jsTrim (s : Str) : Str :=
  ((s.dropWhile Char.isWhitespace).reverse.dropWhile Char.isWhitespace).reverse

/-- `CACHE_TTL_MS` from `lib/keyword-blacklist.ts`. -/
def CACHE_TTL_MS : Int := 60000

/-- The module-level mutable state of `lib/keyword-blacklist.ts` together
with the `blacklist_overrides` table it caches: `overrideCache` holds the
row snapshot the cached `Map` was built from (`none` models the `null`
cache), and `cacheTimestamp` the time it was built. -/
structure ModuleState where
  table : List BlacklistOverride
  overrideCache : Option (List BlacklistOverride)
  cacheTimestamp : Int
deriving DecidableEq, Repr

/-- `loadOverrideCache` at wall-clock `now`: reuse a cache younger than the
TTL, otherwise rebuild it from the table.  Returns the rows the override
`Map` is built from, with the updated module state. -/
def loadOverrideCache (now : Int) (st : ModuleState) :
    List BlacklistOverride × ModuleState :=
  match st.overrideCache with
  | some rows =>
    if now - st.cacheTimestamp < CACHE_TTL_MS then (rows, st)
    else (st.table,
      { st with overrideCache := some st.table, cacheTimestamp := now })
  | none =>
    (st.table, { st with overrideCache := some st.table, cacheTimestamp := now })

/-- `clearBlacklistCache`: drop the cache and reset its timestamp. -/
def clearBlacklistCache (st : ModuleState) : ModuleState :=
  { st with overrideCache := none, cacheTimestamp := 0 }

/-- The write performed by `POST /api/keywords/blacklist`: stem the trimmed
keyword; if a row with that stem exists, update its action and keyword
(row identity is by id in the source; stems are unique, so updating the rows
with the matching stem is the same write), else insert a new row.  The
handler returns without touching the module's cache fields. -/
def postBlacklistOverride (stemWord : Str → Str) (st : ModuleState)
    (keyword : Str) (action : BlacklistAction) : ModuleState :=
  let stem := stemPhrase stemWord (jsTrim keyword)
  let cleanKeyword := jsToLower (jsTrim keyword)
  if (st.table.find? fun r => r.stem = stem).isSome then
    { st with table := st.table.map fun r =>
        if r.stem = stem then { r with action := action, keyword := cleanKeyword }
        else r }
  else
    { st with table := st.table ++ [⟨cleanKeyword, stem, action⟩] }

/-- The delete performed by `DELETE /api/keywords/blacklist?keyword=...`:
remove the rows whose stem matches; the cache fields are again untouched. -/
def deleteBlacklistOverride (stemWord : Str → Str) (st : ModuleState)
    (keyword : Str) : ModuleState :=
  let stem := stemPhrase stemWord (jsTrim keyword)
  { st with table := st.table.filter fun r => r.stem ≠ stem }

/-- `isBlacklistedWithOverrides` as actually executed at time `now`: read the
override rows through the cache, then decide as the pure core does. -/
def isBlacklistedWithOverridesAt (stemWord : Str → Str) (now : Int)
    (st : ModuleState) (keyword : Str) : Bool × ModuleState :=
  let loaded := loadOverrideCache now st
  (isBlacklistedWithOverrides stemWord loaded.1 keyword, loaded.2)

end BlacklistRoute

/-!
Concrete instantiations.  The Porter stemmer is external, so concrete runs of
the model pick a concrete `stemWord`.  `identityStemmer` fixes every word;
the blacklist entries exercised at concrete inputs below (such as `work`)
are single words that the Porter stemmer also fixes, so the instantiated
behavior matches the deployed one on those inputs.
-/

/-- A concrete stemmer: every word is its own stem. -/
def identityStemmer : Str → Str := fun s => s

/-- Oracle output with two phrases sharing the stem `bbb` (mean score `9`)
and one phrase with stem `aaa` (mean score `1`): the group with the better
(lower) mean score has fewer variants. -/
def c1input : List ExtractDaily.KeywordResult :=
  [ { keyword := "bx".data, score := 9, stemmed := "bbb".data }
  , { keyword := "by".data, score := 9, stemmed := "bbb".data }
  , { keyword := "ax".data, score := 1, stemmed := "aaa".data } ]

/-- Oracle output with 76 distinct, non-blacklisted stems. -/
def c1capInput : List ExtractDaily.KeywordResult :=
  (List.range 76).map fun i =>
    { keyword := [Char.ofNat (97 + i / 26), Char.ofNat (97 + i % 26), 'z']
      score := 1
      stemmed := [Char.ofNat (97 + i / 26), Char.ofNat (97 + i % 26), 'z'] }

/-- A phrase whose stem `work` is on the default blacklist. -/
def c2input : List ExtractDaily.KeywordResult :=
  [ { keyword := "work".data, score := 5, stemmed := "work".data } ]

/-- A user override explicitly allowing the stem `work`. -/
def c2allowWork : List KeywordBlacklist.BlacklistOverride :=
  [ { keyword := "work".data, stem := "work".data, action := .allow } ]

/-- A feed holding exactly one record, id `5`, a story with timestamp `100`. -/
def c6feed : Int → Option Sync.HNItem := fun i =>
  if i = 5 then some { id := 5, type := some "story".data, time := some 100 }
  else none

/-- A running sync run whose next window is `[5, 4]`. -/
def c6run : Sync.SyncRun :=
  { startMaxItem := 10, targetEndItem := 4, totalItems := 6
    lastFetchedItem := 6, itemsFetched := 0, status := .running }

/-- An item store that already contains id `5`. -/
def c6store : List Int := [5]

/-- A reachable run with `totalItems = 0` (high-water mark equal to the
target): nothing to fetch. -/
def c5run : Sync.SyncRun :=
  { startMaxItem := 5, targetEndItem := 5, totalItems := 0
    lastFetchedItem := 5, itemsFetched := 0, status := .running }

/-- A running run used to witness cursor monotonicity. -/
def c4run : Sync.SyncRun :=
  { startMaxItem := 1000, targetEndItem := 400, totalItems := 600
    lastFetchedItem := 1000, itemsFetched := 0, status := .running }

/-- A feed in which every record is absent. -/
def emptyFeed : Int → Option Sync.HNItem := fun _ => none

/-- Module state for the blacklist cache: empty table, cache loaded (and
empty) at time `0`. -/
def c9state : BlacklistRoute.ModuleState :=
  { table := [], overrideCache := some [], cacheTimestamp := 0 }

/-- Previous-day rankings used to witness the trend classification: ranks
`10`, `5` and `6` for three keywords. -/
def c8prevDay : List ExtractDaily.DailyKeywordRow :=
  [ { date := "d1".data, keyword := "ka".data, stemmedKeyword := "ka".data
      score := 1, rank := 10, variantCount := 1, itemCount := 3 }
  , { date := "d1".data, keyword := "kb".data, stemmedKeyword := "kb".data
      score := 1, rank := 5, variantCount := 1, itemCount := 3 }
  , { date := "d1".data, keyword := "kc".data, stemmedKeyword := "kc".data
      score := 1, rank := 6, variantCount := 1, itemCount := 3 } ]

/-- A current-day row for keyword `ka` at rank `5`. -/
def c8rowUp : ExtractDaily.DailyKeywordRow :=
  { date := "d2".data, keyword := "ka".data, stemmedKeyword := "ka".data
    score := 1, rank := 5, variantCount := 1, itemCount := 4 }

/-- A current-day row for keyword `kb` at rank `10`. -/
def c8rowDown : ExtractDaily.DailyKeywordRow :=
  { date := "d2".data, keyword := "kb".data, stemmedKeyword := "kb".data
    score := 1, rank := 10, variantCount := 1, itemCount := 4 }

/-- A current-day row for keyword `kc` at rank `5`. -/
def c8rowStable : ExtractDaily.DailyKeywordRow :=
  { date := "d2".data, keyword := "kc".data, stemmedKeyword := "kc".data
    score := 1, rank := 5, variantCount := 1, itemCount := 4 }

/-- A current-day row for a keyword absent from the previous day. -/
def c8rowNew : ExtractDaily.DailyKeywordRow :=
  { date := "d2".data, keyword := "kd".data, stemmedKeyword := "kd".data
    score := 1, rank := 2, variantCount := 1, itemCount := 4 }

/-- An existing keyword-stats row with the spec's test-vector values. -/
def c3row : ExtractDaily.KeywordStatRow :=
  { keyword := "kw".data, stemmedKeyword := "kw".data, lastItemTime := 500
    lastItemId := 42, firstSeenTime := 100, totalDaysAppeared := 3 }

/-!
Theorems.  Helper lemmas come first, then one theorem per claim (with its
witness or counterexample where required).
-/

theorem minList_cons_le (x : Int) (xs : List Int) : Sync.minList (x :: xs) ≤ x := by
  show xs.foldl min x ≤ x
  induction xs generalizing x with
  | nil => simp [Sync.minList]
  | cons y ys ih =>
    calc (y :: ys).foldl min x = ys.foldl min (min x y) := rfl
    _ ≤ min x y := ih (min x y)
    _ ≤ x := min_le_left x y

theorem le_minList (c : Int) (x : Int) (xs : List Int) (hx : c ≤ x)
    (hxs : ∀ y ∈ xs, c ≤ y) : c ≤ Sync.minList (x :: xs) := by
  show c ≤ xs.foldl min x
  induction xs generalizing x with
  | nil => simpa [Sync.minList] using hx
  | cons y ys ih =>
    have hy : c ≤ y := hxs y (by simp)
    exact ih (min x y) (le_min hx hy) fun z hz => hxs z (by simp [hz])

/-- C3: for an existing stats row, the new-day upsert merges with
`max`/`min` and increments `totalDaysAppeared` by one, while the
reprocessing upsert overwrites `lastItemTime`/`lastItemId` unconditionally
and leaves `firstSeenTime` and `totalDaysAppeared` unchanged. -/
theorem c3_stats_merge (r : ExtractDaily.KeywordStatRow) (keyword stem : Str)
    (t i : Int) :
    ((ExtractDaily.newDayUpsert (some r) keyword stem t i).lastItemTime
        = max r.lastItemTime t
      ∧ (ExtractDaily.newDayUpsert (some r) keyword stem t i).firstSeenTime
        = min r.firstSeenTime t
      ∧ (ExtractDaily.newDayUpsert (some r) keyword stem t i).totalDaysAppeared
        = r.totalDaysAppeared + 1)
    ∧ ((ExtractDaily.reprocessUpsert (some r) keyword stem t i).lastItemTime = t
      ∧ (ExtractDaily.reprocessUpsert (some r) keyword stem t i).lastItemId = i
      ∧ (ExtractDaily.reprocessUpsert (some r) keyword stem t i).firstSeenTime
        = r.firstSeenTime
      ∧ (ExtractDaily.reprocessUpsert (some r) keyword stem t i).totalDaysAppeared
        = r.totalDaysAppeared) :=
  ⟨⟨rfl, rfl, rfl⟩, rfl, rfl, rfl, rfl⟩

/-- C8: a keyword with no rank on the immediately preceding day with data is
`new`; otherwise `rankChange = previousRank - currentRank` classifies `up`
above `2`, `down` below `-2`, `stable` in between; and the day loop pairs
each day with the preceding day that has data. -/
theorem c8_trend_classification
    (prev : Option (List ExtractDaily.DailyKeywordRow))
    (kw : ExtractDaily.DailyKeywordRow) :
    (Trends.prevRank prev kw.keyword = none →
      (Trends.trendFor prev kw).trend = .new)
    ∧ (∀ p, Trends.prevRank prev kw.keyword = some p →
        (Trends.trendFor prev kw).rankChange = some (p - (kw.rank : Int))
        ∧ (p - (kw.rank : Int) > 2 → (Trends.trendFor prev kw).trend = .up)
        ∧ (p - (kw.rank : Int) < -2 → (Trends.trendFor prev kw).trend = .down)
        ∧ (-2 ≤ p - (kw.rank : Int) → p - (kw.rank : Int) ≤ 2 →
            (Trends.trendFor prev kw).trend = .stable))
    ∧ (∀ (date : Str) (cur : List ExtractDaily.DailyKeywordRow) rest,
        Trends.computeTrends prev ((date, cur) :: rest)
          = (date, Trends.dayTrends prev cur) :: Trends.computeTrends (some cur) rest) := by
  refine ⟨fun h => ?_, fun p hp => ?_, fun date cur rest => rfl⟩
  · simp [Trends.trendFor, h]
  · refine ⟨by simp [Trends.trendFor, hp], fun hup => ?_, fun hdown => ?_,
      fun hlo hhi => ?_⟩
    · simp [Trends.trendFor, hp, if_pos hup]
    · have hcond : ¬ ((2 : Int) < p - (kw.rank : Int)) := by omega
      simp [Trends.trendFor, hp, hcond, hdown]
    · have h1 : ¬ ((2 : Int) < p - (kw.rank : Int)) := by omega
      have h2 : ¬ (p - (kw.rank : Int) < -2) := by omega
      simp [Trends.trendFor, hp, h1, h2]

/-- Witness for C8 at the spec's test vectors: previous rank 10 and current 5
is `up`, 5 to 10 is `down`, 6 to 5 is `stable`, and no previous entry is
`new`. -/
theorem c8_trend_classification_witness :
    (Trends.trendFor (some c8prevDay) c8rowUp).trend = .up
    ∧ (Trends.trendFor (some c8prevDay) c8rowDown).trend = .down
    ∧ (Trends.trendFor (some c8prevDay) c8rowStable).trend = .stable
    ∧ (Trends.trendFor (some c8prevDay) c8rowNew).trend = .new :=
  ⟨(((c8_trend_classification (some c8prevDay) c8rowUp).2.1 10
      (by decide)).2.1 (by decide)),
   (((c8_trend_classification (some c8prevDay) c8rowDown).2.1 5
      (by decide)).2.2.1 (by decide)),
   (((c8_trend_classification (some c8prevDay) c8rowStable).2.1 6
      (by decide)).2.2.2 (by decide) (by decide)),
   ((c8_trend_classification (some c8prevDay) c8rowNew).1 (by decide))⟩

/-- C2: the daily aggregation's blacklist check (`isStemBlacklisted`) never
consults user overrides: a phrase whose stem a user has explicitly allowed is
still dropped if the default list blocks it.  At keyword `work` with the
`allow` override present, the aggregation drops the phrase while the
override-aware check `isBlacklistedWithOverrides` (not called by the
aggregation) keeps it. -/
theorem c2_overrides_not_consulted :
    ExtractDaily.aggregateKeywords identityStemmer [] c2input = []
    ∧ KeywordBlacklist.isStemBlacklisted identityStemmer "work".data = true
    ∧ KeywordBlacklist.isBlacklistedWithOverrides identityStemmer c2allowWork
        "work".data = false := by
  refine ⟨by decide, by decide, by decide⟩

/-- C9: neither the create/update nor the delete handler of the blacklist
route touches the override cache (no call to `clearBlacklistCache`); hence a
cached read right after a write still serves pre-write data: after an `allow`
override for `work` is written at a state whose cache was loaded 1 second
earlier, the cached check still reports `work` blacklisted while a fresh read
of the table reports it allowed. -/
theorem c9_no_invalidation_after_write :
    (∀ (stemWord : Str → Str) (st : BlacklistRoute.ModuleState) (kw : Str)
        (a : KeywordBlacklist.BlacklistAction),
      (BlacklistRoute.postBlacklistOverride stemWord st kw a).overrideCache
          = st.overrideCache
        ∧ (BlacklistRoute.postBlacklistOverride stemWord st kw a).cacheTimestamp
          = st.cacheTimestamp
        ∧ (BlacklistRoute.deleteBlacklistOverride stemWord st kw).overrideCache
          = st.overrideCache)
    ∧ (BlacklistRoute.isBlacklistedWithOverridesAt identityStemmer 1000
        (BlacklistRoute.postBlacklistOverride identityStemmer c9state
          "work".data .allow) "work".data).1 = true
    ∧ KeywordBlacklist.isBlacklistedWithOverrides identityStemmer
        (BlacklistRoute.postBlacklistOverride identityStemmer c9state
          "work".data .allow).table "work".data = false := by
  refine ⟨fun stemWord st kw a => ⟨?_, ?_, rfl⟩, by decide, by decide⟩
  · simp only [BlacklistRoute.postBlacklistOverride]
    split <;> rfl
  · simp only [BlacklistRoute.postBlacklistOverride]
    split <;> rfl

theorem aggregate_foldl_filter (stemWord : Str → Str)
    (vo : List KeywordVariants.VariantOverride) :
    ∀ (kws : List ExtractDaily.KeywordResult)
      (acc : List (Str × ExtractDaily.GroupData)),
      kws.foldl (ExtractDaily.aggregateStep stemWord vo) acc
        = (kws.filter fun k =>
            !(KeywordBlacklist.isStemBlacklisted stemWord k.stemmed)).foldl
            (ExtractDaily.aggregateStep stemWord vo) acc := by
  intro kws
  induction kws with
  | nil => intro acc; rfl
  | cons k ks ih =>
    intro acc
    rw [List.foldl_cons, List.filter_cons]
    by_cases h : KeywordBlacklist.isStemBlacklisted stemWord k.stemmed
    · have hstep : ExtractDaily.aggregateStep stemWord vo acc k = acc := by
        simp [ExtractDaily.aggregateStep, h]
      have hcond : (!KeywordBlacklist.isStemBlacklisted stemWord k.stemmed) = false := by
        simp [h]
      rw [hstep, hcond, if_neg Bool.false_ne_true]
      exact ih acc
    · have hcond : (!KeywordBlacklist.isStemBlacklisted stemWord k.stemmed) = true := by
        simp [h]
      rw [hcond, if_pos rfl, List.foldl_cons]
      exact ih _

/-- C10: default-blacklist matching is substring containment on stemmed
forms, not exact equality: `isStemBlacklisted` holds exactly when the
keyword's stemmed form contains some stemmed default entry as a contiguous
substring, `isBlacklisted` is the same check after stemming, such keywords
contribute nothing to the aggregation, and concretely the phrases
`remote work` and `network` (whose stems merely contain `work`) are
blacklisted. -/
theorem c10_substring_blacklist :
    (∀ (stemWord : Str → Str) (s : Str),
      KeywordBlacklist.isStemBlacklisted stemWord s = true
        ↔ ∃ b ∈ KeywordBlacklist.STEMMED_BLACKLIST stemWord, b <:+: s)
    ∧ (∀ (stemWord : Str → Str) (kw : Str),
        KeywordBlacklist.isBlacklisted stemWord kw
          = KeywordBlacklist.isStemBlacklisted stemWord
              (KeywordBlacklist.stemPhrase stemWord kw))
    ∧ (∀ (stemWord : Str → Str) (vo : List KeywordVariants.VariantOverride)
        (kws : List ExtractDaily.KeywordResult),
        ExtractDaily.aggregateKeywords stemWord vo kws
          = ExtractDaily.aggregateKeywords stemWord vo
              (kws.filter fun k =>
                !(KeywordBlacklist.isStemBlacklisted stemWord k.stemmed)))
    ∧ KeywordBlacklist.isStemBlacklisted identityStemmer "remote work".data = true
    ∧ KeywordBlacklist.isStemBlacklisted identityStemmer "network".data = true := by
  refine ⟨fun stemWord s => ?_, fun stemWord kw => rfl, fun stemWord vo kws => ?_,
    by decide, by decide⟩
  · simp [KeywordBlacklist.isStemBlacklisted, jsIncludes, List.any_eq_true]
  · unfold ExtractDaily.aggregateKeywords
    rw [aggregate_foldl_filter]

theorem sorted_by_count_insertionSort (l : List ExtractDaily.AggregatedKeyword) :
    List.Sorted (fun a b : ExtractDaily.AggregatedKeyword => b.count ≤ a.count)
      (l.insertionSort fun a b => b.count ≤ a.count) := by
  haveI : IsTotal ExtractDaily.AggregatedKeyword
      (fun a b => b.count ≤ a.count) := ⟨fun a b => le_total b.count a.count⟩
  haveI : IsTrans ExtractDaily.AggregatedKeyword
      (fun a b => b.count ≤ a.count) := ⟨fun _ _ _ hab hbc => le_trans hbc hab⟩
  exact List.sorted_insertionSort _ l

/-- C1 (amended): for every day's extraction, the aggregated groups are
sorted descending by variant count (not ascending by mean score), the
persisted rows get the dense rank `idx + 1` in that order, and the whole
aggregated set is persisted — there is no top-75 cap. -/
theorem c1_rank_order_no_cap (stemWord : Str → Str)
    (vo : List KeywordVariants.VariantOverride)
    (kws : List ExtractDaily.KeywordResult) (d : Str) (n : ℕ) :
    List.Sorted (fun a b : ExtractDaily.AggregatedKeyword => b.count ≤ a.count)
      (ExtractDaily.aggregateKeywords stemWord vo kws)
    ∧ (ExtractDaily.dailyKeywordRows d n
        (ExtractDaily.aggregateKeywords stemWord vo kws)).length
      = (ExtractDaily.aggregateKeywords stemWord vo kws).length
    ∧ ∀ i (h : i < (ExtractDaily.dailyKeywordRows d n
        (ExtractDaily.aggregateKeywords stemWord vo kws)).length),
        ((ExtractDaily.dailyKeywordRows d n
          (ExtractDaily.aggregateKeywords stemWord vo kws)).get ⟨i, h⟩).rank
          = i + 1 := by
  refine ⟨?_, List.length_mapIdx, fun i h => ?_⟩
  · unfold ExtractDaily.aggregateKeywords
    exact sorted_by_count_insertionSort _
  · show (ExtractDaily.dailyKeywordRows d n
      (ExtractDaily.aggregateKeywords stemWord vo kws))[i].rank = i + 1
    unfold ExtractDaily.dailyKeywordRows
    rw [List.getElem_mapIdx]

/-- Witness for C1 (amended) at a concrete input: the output is sorted by
descending variant count and the first persisted row has rank 1. -/
theorem c1_rank_order_no_cap_witness :
    List.Sorted (fun a b : ExtractDaily.AggregatedKeyword => b.count ≤ a.count)
      (ExtractDaily.aggregateKeywords identityStemmer [] c1input)
    ∧ ((ExtractDaily.dailyKeywordRows "d1".data 3
        (ExtractDaily.aggregateKeywords identityStemmer [] c1input)).get
        ⟨0, by decide⟩).rank = 0 + 1 :=
  ⟨(c1_rank_order_no_cap identityStemmer [] c1input "d1".data 3).1,
   (c1_rank_order_no_cap identityStemmer [] c1input "d1".data 3).2.2 0 (by decide)⟩

set_option maxRecDepth 200000 in
/-- C1 counterexample: at `c1input` the aggregated output is not sorted
ascending by mean score (the head has mean `9`, the next mean `1`, because
the code sorts by descending variant count), and at `c1capInput` all 76
groups are persisted, beyond the claimed cap of 75. -/
theorem c1_counterexample :
    ¬ List.Sorted (fun a b : ExtractDaily.AggregatedKeyword =>
        a.avgScore ≤ b.avgScore)
      (ExtractDaily.aggregateKeywords identityStemmer [] c1input)
    ∧ 75 < (ExtractDaily.aggregateKeywords identityStemmer [] c1capInput).length := by
  constructor
  · have h : ExtractDaily.aggregateKeywords identityStemmer [] c1input =
        [ { keyword := "bx".data, stem := "bbb".data, avgScore := (0 + 9 + 9) / 2
            count := 2, variants := ["bx".data, "by".data] }
        , { keyword := "ax".data, stem := "aaa".data, avgScore := (0 + 1) / 1
            count := 1, variants := ["ax".data] } ] := by
      simp [ExtractDaily.aggregateKeywords, ExtractDaily.aggregateStep,
        ExtractDaily.updateGroup, KeywordVariants.getParentKeyword,
        KeywordVariants.stemKeyword, c1input, List.insertionSort,
        List.orderedInsert]
    intro hs
    rw [h, List.sorted_cons] at hs
    have h2 := hs.1 _ (List.mem_singleton_self _)
    norm_num at h2
  · decide

theorem foldl_min_le_init (xs : List Int) (a : Int) : xs.foldl min a ≤ a := by
  induction xs generalizing a with
  | nil => exact le_refl a
  | cons y ys ih =>
    calc (y :: ys).foldl min a = ys.foldl min (min a y) := rfl
    _ ≤ min a y := ih (min a y)
    _ ≤ a := min_le_left a y

theorem idsToFetch_bounds (startId endId x : Int)
    (hx : x ∈ Sync.idsToFetch startId endId) : endId ≤ x ∧ x ≤ startId - 1 := by
  unfold Sync.idsToFetch at hx
  obtain ⟨k, hk, rfl⟩ := List.mem_map.mp hx
  rw [List.mem_range] at hk
  have hk1 : k < (startId - endId).toNat := lt_of_lt_of_le hk (min_le_left _ _)
  omega

theorem minList_bounds (startId endId : Int)
    (hne : (Sync.idsToFetch startId endId).isEmpty = false) :
    endId ≤ Sync.minList (Sync.idsToFetch startId endId)
      ∧ Sync.minList (Sync.idsToFetch startId endId) ≤ startId - 1 := by
  rcases hl : Sync.idsToFetch startId endId with _ | ⟨x, xs⟩
  · rw [hl] at hne; simp at hne
  · have hx : x ∈ Sync.idsToFetch startId endId := by rw [hl]; exact List.mem_cons_self x xs
    constructor
    · apply le_minList
      · exact (idsToFetch_bounds startId endId x hx).1
      · intro y hy
        have : y ∈ Sync.idsToFetch startId endId := by
          rw [hl]; exact List.mem_cons_of_mem x hy
        exact (idsToFetch_bounds startId endId y this).1
    · calc Sync.minList (x :: xs) ≤ x := minList_cons_le x xs
      _ ≤ startId - 1 := (idsToFetch_bounds startId endId x hx).2

theorem processChunk_cursor_step (feed : Int → Option Sync.HNItem)
    (run : Sync.SyncRun) (store : List Int) :
    (Sync.processChunk feed run store).1.lastFetchedItem ≤ run.lastFetchedItem
    ∧ (Sync.processChunk feed run store).1.targetEndItem = run.targetEndItem
    ∧ (run.targetEndItem ≤ run.lastFetchedItem →
        run.targetEndItem ≤ (Sync.processChunk feed run store).1.lastFetchedItem) := by
  by_cases hc : run.status = Sync.RunStatus.completed
  · simp [Sync.processChunk, hc]
  · by_cases he : (Sync.idsToFetch run.lastFetchedItem
        (max run.targetEndItem (run.lastFetchedItem - Sync.CHUNK_SIZE))).isEmpty
    · by_cases hp : run.status = Sync.RunStatus.paused <;>
        simp [Sync.processChunk, hc, hp, he]
    · rw [Bool.not_eq_true] at he
      have hb := minList_bounds run.lastFetchedItem
        (max run.targetEndItem (run.lastFetchedItem - Sync.CHUNK_SIZE)) he
      by_cases hp : run.status = Sync.RunStatus.paused <;>
        · simp [Sync.processChunk, hc, hp, he]
          omega

/-- C4: over any sequence of `processChunk` calls on one run, the persisted
cursor `lastFetchedItem` is non-increasing and, for a run whose cursor starts
at or above `targetEndItem` (as every created run does), never drops below
`targetEndItem`. -/
theorem c4_cursor_monotonic (feeds : List (Int → Option Sync.HNItem))
    (run : Sync.SyncRun) (store : List Int)
    (h : run.targetEndItem ≤ run.lastFetchedItem) :
    (Sync.runChunks feeds (run, store)).1.lastFetchedItem ≤ run.lastFetchedItem
    ∧ run.targetEndItem ≤ (Sync.runChunks feeds (run, store)).1.lastFetchedItem := by
  induction feeds generalizing run store with
  | nil => exact ⟨le_refl _, h⟩
  | cons f fs ih =>
    have hstep := processChunk_cursor_step f run store
    have hrw : Sync.runChunks (f :: fs) (run, store)
        = Sync.runChunks fs (Sync.processChunk f run store) := rfl
    rw [hrw]
    rcases hq : Sync.processChunk f run store with ⟨r', s'⟩
    rw [hq] at hstep
    have hih := ih r' s' (by rw [hstep.2.1]; exact hstep.2.2 h)
    exact ⟨le_trans hih.1 hstep.1, by rw [← hstep.2.1]; exact hih.2⟩

/-- Witness for C4 at a concrete run (`startMaxItem = 1000`,
`targetEndItem = 400`) and a one-chunk sequence over an all-absent feed. -/
theorem c4_cursor_monotonic_witness :
    c4run.targetEndItem ≤ c4run.lastFetchedItem
    ∧ (Sync.runChunks [emptyFeed] (c4run, [])).1.lastFetchedItem
      ≤ c4run.lastFetchedItem
    ∧ c4run.targetEndItem
      ≤ (Sync.runChunks [emptyFeed] (c4run, [])).1.lastFetchedItem :=
  ⟨by decide,
   (c4_cursor_monotonic [emptyFeed] c4run [] (by decide)).1,
   (c4_cursor_monotonic [emptyFeed] c4run [] (by decide)).2⟩

theorem mathRound_bounds (q : ℚ) (h0 : 0 ≤ q) (h100 : q ≤ 100) :
    0 ≤ Sync.mathRound q ∧ Sync.mathRound q ≤ 100 := by
  constructor
  · exact Int.le_floor.mpr (by push_cast; linarith)
  · have h : Sync.mathRound q < 101 := Int.floor_lt.mpr (by push_cast; linarith)
    omega

/-- C5 (amended): for every reachable run state
(`targetEndItem ≤ lastFetchedItem ≤ startMaxItem`,
`totalItems = startMaxItem - targetEndItem`), the status query's progress is
the unclamped `round((startMaxItem - lastFetchedItem) / totalItems * 100)`
when `totalItems > 0` — a value that lies in `[0, 100]` anyway on reachable
states — and is `0`, not `100`, when `totalItems = 0`. -/
theorem c5_progress_value (run : Sync.SyncRun)
    (h1 : run.targetEndItem ≤ run.lastFetchedItem)
    (h2 : run.lastFetchedItem ≤ run.startMaxItem)
    (h3 : run.totalItems = run.startMaxItem - run.targetEndItem) :
    0 ≤ Sync.runProgress run ∧ Sync.runProgress run ≤ 100
    ∧ (run.totalItems = 0 → Sync.runProgress run = 0)
    ∧ (0 < run.totalItems → Sync.runProgress run
        = Sync.mathRound (((run.startMaxItem : ℚ) - (run.lastFetchedItem : ℚ))
            / (run.totalItems : ℚ) * 100)) := by
  by_cases hz : run.totalItems > 0
  · have hrp : Sync.runProgress run
        = Sync.mathRound (((run.startMaxItem : ℚ) - (run.lastFetchedItem : ℚ))
            / (run.totalItems : ℚ) * 100) := by
      unfold Sync.runProgress
      rw [if_pos hz]
    have ha : (0 : ℚ) ≤ (run.startMaxItem : ℚ) - (run.lastFetchedItem : ℚ) := by
      have : (run.lastFetchedItem : ℚ) ≤ (run.startMaxItem : ℚ) := by
        exact_mod_cast h2
      linarith
    have hbpos : (0 : ℚ) < (run.totalItems : ℚ) := by exact_mod_cast hz
    have hb : (run.startMaxItem : ℚ) - (run.lastFetchedItem : ℚ)
        ≤ (run.totalItems : ℚ) := by
      have h1q : (run.targetEndItem : ℚ) ≤ (run.lastFetchedItem : ℚ) := by
        exact_mod_cast h1
      have h3q : (run.totalItems : ℚ)
          = (run.startMaxItem : ℚ) - (run.targetEndItem : ℚ) := by
        exact_mod_cast h3
      linarith
    have hq0 : (0 : ℚ) ≤ ((run.startMaxItem : ℚ) - (run.lastFetchedItem : ℚ))
        / (run.totalItems : ℚ) * 100 :=
      mul_nonneg (div_nonneg ha hbpos.le) (by norm_num)
    have hq1 : ((run.startMaxItem : ℚ) - (run.lastFetchedItem : ℚ))
        / (run.totalItems : ℚ) * 100 ≤ 100 := by
      have hd : ((run.startMaxItem : ℚ) - (run.lastFetchedItem : ℚ))
          / (run.totalItems : ℚ) ≤ 1 := (div_le_one hbpos).mpr hb
      nlinarith
    have hbs := mathRound_bounds _ hq0 hq1
    exact ⟨by rw [hrp]; exact hbs.1, by rw [hrp]; exact hbs.2,
      fun h0 => absurd h0 (by omega), fun _ => hrp⟩
  · have hz0 : run.totalItems = 0 := by omega
    have hrp : Sync.runProgress run = 0 := by
      unfold Sync.runProgress
      rw [if_neg hz]
    exact ⟨by omega, by omega, fun _ => hrp, fun hlt => absurd hlt (by omega)⟩

/-- Witness for C5 (amended) at the concrete run `c4run` (`1000` down to
`400`, `600` total). -/
theorem c5_progress_value_witness :
    (c4run.targetEndItem ≤ c4run.lastFetchedItem
      ∧ c4run.lastFetchedItem ≤ c4run.startMaxItem
      ∧ c4run.totalItems = c4run.startMaxItem - c4run.targetEndItem)
    ∧ 0 ≤ Sync.runProgress c4run ∧ Sync.runProgress c4run ≤ 100 :=
  ⟨⟨by decide, by decide, by decide⟩,
   (c5_progress_value c4run (by decide) (by decide) (by decide)).1,
   (c5_progress_value c4run (by decide) (by decide) (by decide)).2.1⟩

/-- C5 counterexample: at the reachable run `c5run` with `totalItems = 0`,
the status query reports progress `0`, while the claim says `100`. -/
theorem c5_counterexample :
    Sync.runProgress c5run = 0 ∧ Sync.specClaimedProgress c5run = 100 := by
  constructor
  · unfold Sync.runProgress
    rw [if_neg (by decide)]
  · unfold Sync.specClaimedProgress
    rw [if_pos (by decide)]

theorem batchInsertItems_count (store : List Int) (hnItems : List Sync.HNItem) :
    (Sync.batchInsertItems store hnItems).2
      = (hnItems.filter fun it =>
          Sync.truthyStr it.type && Sync.truthyInt it.time).length := by
  unfold Sync.batchInsertItems
  by_cases h1 : hnItems.isEmpty
  · rw [if_pos h1, List.isEmpty_iff.mp h1]
    rfl
  · rw [if_neg h1]
    by_cases h2 : (hnItems.filter fun it =>
        Sync.truthyStr it.type && Sync.truthyInt it.time).isEmpty
    · rw [if_pos h2, List.isEmpty_iff.mp h2]
      rfl
    · rw [if_neg h2]

theorem insert_fold_growth (valid : List Sync.HNItem) :
    ∀ (store : List Int),
      (valid.foldl (fun st it => if st.contains it.id then st else st ++ [it.id])
        store).length ≤ store.length + valid.length := by
  induction valid with
  | nil => intro store; simp
  | cons it rest ih =>
    intro store
    rw [List.foldl_cons]
    by_cases h : store.contains it.id
    · rw [if_pos h]
      have := ih store
      simp only [List.length_cons]
      omega
    · rw [if_neg h]
      have := ih (store ++ [it.id])
      simp only [List.length_append, List.length_singleton] at this
      simp only [List.length_cons]
      omega

/-- C6 (amended): for a non-completed run with a nonempty window, a chunk
call increments `itemsFetched` by the number of fetched records that pass the
validity filter (present, with a truthy type and timestamp) — records skipped
by the filtering do not count, but records whose id is already in the store
still do, since the insert-or-ignore count is the size of the prepared batch,
not the number of rows actually inserted; the store grows by at most that
number. -/
theorem c6_itemsFetched_increment (feed : Int → Option Sync.HNItem)
    (run : Sync.SyncRun) (store : List Int)
    (hs : run.status ≠ Sync.RunStatus.completed)
    (hne : (Sync.idsToFetch run.lastFetchedItem
      (max run.targetEndItem (run.lastFetchedItem - Sync.CHUNK_SIZE))).isEmpty
        = false) :
    (Sync.processChunk feed run store).1.itemsFetched
      = run.itemsFetched
        + ((((Sync.idsToFetch run.lastFetchedItem
              (max run.targetEndItem (run.lastFetchedItem - Sync.CHUNK_SIZE))).map
                feed).filterMap id).filter fun it =>
            Sync.truthyStr it.type && Sync.truthyInt it.time).length
    ∧ (Sync.processChunk feed run store).2.length
      ≤ store.length
        + ((((Sync.idsToFetch run.lastFetchedItem
              (max run.targetEndItem (run.lastFetchedItem - Sync.CHUNK_SIZE))).map
                feed).filterMap id).filter fun it =>
            Sync.truthyStr it.type && Sync.truthyInt it.time).length := by
  have hcount := batchInsertItems_count store
    (((Sync.idsToFetch run.lastFetchedItem
      (max run.targetEndItem (run.lastFetchedItem - Sync.CHUNK_SIZE))).map
        feed).filterMap id)
  have hgrow : (Sync.batchInsertItems store
      (((Sync.idsToFetch run.lastFetchedItem
        (max run.targetEndItem (run.lastFetchedItem - Sync.CHUNK_SIZE))).map
          feed).filterMap id)).1.length
      ≤ store.length
        + ((((Sync.idsToFetch run.lastFetchedItem
              (max run.targetEndItem (run.lastFetchedItem - Sync.CHUNK_SIZE))).map
                feed).filterMap id).filter fun it =>
            Sync.truthyStr it.type && Sync.truthyInt it.time).length := by
    unfold Sync.batchInsertItems
    by_cases h1 : (((Sync.idsToFetch run.lastFetchedItem
        (max run.targetEndItem (run.lastFetchedItem - Sync.CHUNK_SIZE))).map
          feed).filterMap id).isEmpty
    · rw [if_pos h1]; exact Nat.le_add_right _ _
    · rw [if_neg h1]
      by_cases h2 : ((((Sync.idsToFetch run.lastFetchedItem
          (max run.targetEndItem (run.lastFetchedItem - Sync.CHUNK_SIZE))).map
            feed).filterMap id).filter fun it =>
          Sync.truthyStr it.type && Sync.truthyInt it.time).isEmpty
      · rw [if_pos h2]; exact Nat.le_add_right _ _
      · rw [if_neg h2]
        have := insert_fold_growth
          ((((Sync.idsToFetch run.lastFetchedItem
            (max run.targetEndItem (run.lastFetchedItem - Sync.CHUNK_SIZE))).map
              feed).filterMap id).filter fun it =>
            Sync.truthyStr it.type && Sync.truthyInt it.time) store
        simpa using this
  by_cases hp : run.status = Sync.RunStatus.paused <;>
    · simp only [Sync.processChunk, if_neg hs, hp, if_true, if_false, hne,
        Bool.false_eq_true, reduceIte]
      constructor
      · simpa using hcount
      · simpa using hgrow

/-- Witness for C6 (amended) at the concrete chunk `c6feed`/`c6run`: one
valid record is fetched, so `itemsFetched` rises by exactly that filter
count. -/
theorem c6_itemsFetched_increment_witness :
    (c6run.status ≠ Sync.RunStatus.completed
      ∧ (Sync.idsToFetch c6run.lastFetchedItem
          (max c6run.targetEndItem
            (c6run.lastFetchedItem - Sync.CHUNK_SIZE))).isEmpty = false)
    ∧ (Sync.processChunk c6feed c6run c6store).1.itemsFetched
      = c6run.itemsFetched
        + ((((Sync.idsToFetch c6run.lastFetchedItem
              (max c6run.targetEndItem
                (c6run.lastFetchedItem - Sync.CHUNK_SIZE))).map
                c6feed).filterMap id).filter fun it =>
            Sync.truthyStr it.type && Sync.truthyInt it.time).length :=
  ⟨⟨by decide, by decide⟩,
   (c6_itemsFetched_increment c6feed c6run c6store (by decide) (by decide)).1⟩

/-- C6 counterexample: at `c6feed`/`c6run`/`c6store` the only fetched valid
record (id `5`) is already in the store, so nothing is actually inserted —
the store is unchanged — yet `itemsFetched` is incremented by `1`, not by
the count of records actually inserted (`0`). -/
theorem c6_counterexample :
    (Sync.processChunk c6feed c6run c6store).1.itemsFetched
        - c6run.itemsFetched = 1
    ∧ (Sync.processChunk c6feed c6run c6store).2 = c6store
    ∧ (Sync.processChunk c6feed c6run c6store).1.itemsFetched
        - c6run.itemsFetched
      ≠ ((Sync.processChunk c6feed c6run c6store).2.length : Int)
        - (c6store.length : Int) := by
  refine ⟨by decide, by decide, by decide⟩

/-- C7: the boundary locator binary-searches `[minItem, maxItem]`: with
`mid = floor((low + high) / 2)`, a probe whose record is absent or
timestamp-less searches the lower half keeping the best match, a probe with
timestamp at or before the target records `mid` as the best match and
searches the upper half, a probe after the target searches the lower half;
when the interval empties the loop returns the best match; and the function's
result is the best match minus the fixed 1000-id margin, clamped below to
`minItem`. -/
theorem c7_binary_search (feed : Int → Option Sync.HNItem)
    (target low high best minItem maxItem : Int) (h : low ≤ high) :
    (HnApi.jsTimeOf (feed ((low + high) / 2)) = none →
      HnApi.searchLoop feed target low high best
        = HnApi.searchLoop feed target low ((low + high) / 2 - 1) best)
    ∧ (∀ t, HnApi.jsTimeOf (feed ((low + high) / 2)) = some t → t ≤ target →
        HnApi.searchLoop feed target low high best
          = HnApi.searchLoop feed target ((low + high) / 2 + 1) high
              ((low + high) / 2))
    ∧ (∀ t, HnApi.jsTimeOf (feed ((low + high) / 2)) = some t → target < t →
        HnApi.searchLoop feed target low high best
          = HnApi.searchLoop feed target low ((low + high) / 2 - 1) best)
    ∧ (∀ low' high' best', high' < low' →
        HnApi.searchLoop feed target low' high' best' = best')
    ∧ HnApi.findItemIdAtTimestamp feed target maxItem minItem
      = max minItem (HnApi.searchLoop feed target minItem maxItem minItem - 1000) := by
  refine ⟨fun hnone => ?_, fun t ht htle => ?_, fun t ht hgt => ?_,
    fun low' high' best' hlt => ?_, rfl⟩
  · rw [HnApi.searchLoop, dif_pos h, hnone]
  · rw [HnApi.searchLoop, dif_pos h, ht]
    simp only [if_pos htle]
  · rw [HnApi.searchLoop, dif_pos h, ht]
    simp only [if_neg (not_le.mpr hgt)]
  · rw [HnApi.searchLoop, dif_neg (not_le.mpr hlt)]

/-- Witness for C7 on the all-absent feed over `[1, 10]`: the first probe is
treated as after the target and the search continues in the lower half, and
the final result applies the 1000-id margin with the `minItem` clamp. -/
theorem c7_binary_search_witness :
    ((0 : Int) ≤ 10)
    ∧ HnApi.searchLoop emptyFeed 0 0 10 0
      = HnApi.searchLoop emptyFeed 0 0 ((0 + 10) / 2 - 1) 0
    ∧ HnApi.findItemIdAtTimestamp emptyFeed 0 10 1
      = max 1 (HnApi.searchLoop emptyFeed 0 1 10 1 - 1000) :=
  ⟨by decide,
   (c7_binary_search emptyFeed 0 0 10 0 1 10 (by decide)).1 (by decide),
   (c7_binary_search emptyFeed 0 0 10 0 1 10 (by decide)).2.2.2.2⟩

/-- Witness for C10: `homework` stems (under the concrete stemmer) to a form
containing the blacklisted stem `work`, so it is blacklisted by containment
though it equals no blacklist entry. -/
theorem c10_substring_blacklist_witness :
    KeywordBlacklist.isStemBlacklisted identityStemmer "homework".data = true :=
  (c10_substring_blacklist.1 identityStemmer "homework".data).mpr
    ⟨"work".data, by decide, by decide⟩
